import Mathlib

/-!
# Verification of the workflow-orchestrator core

Shallow embedding of the graph registry/compiler, state annotation model,
routing/scoring engine and thread lifecycle manager of the repository
(`src/current-system/graph-builder.service.ts`, the workflow-orchestrator
service, and `src/thread-store/inmemory-thread-store.repository.ts`).

JavaScript `Record`s and `Map`s keyed by strings are embedded as association
lists preserving insertion order (which is the iteration order of both
`Object.entries` and `Map` iteration for string keys); `Date` values are
embedded as their millisecond integer (`getTime()`); nondeterministic inputs
(`Date.now()`, `Math.random()`) are explicit parameters.
-/

set_option maxHeartbeats 1000000

namespace Orchestrator

/-- Association-list update with JavaScript `Map.set`/object-assignment
semantics: an existing key keeps its position and gets the new value, a new
key is appended at the end. -/
def setA {β : Type} : List (String × β) → String → β → List (String × β)
  | [], k, v => [(k, v)]
  | (k', v') :: rest, k, v =>
    if k' == k then (k, v) :: rest else (k', v') :: setA rest k v

/- ## Messages and the state annotation model
From `graph-builder.service.ts` lines 40-145. -/

/-- A LangChain chat message (`HumanMessage` / `AIMessage`), reduced to the
constructor kind and text content, which is all the embedded code inspects. -/
inductive BaseMessage : Type
  | human (text : String)
  | ai (text : String)
deriving DecidableEq, Repr

/-- `inputAnalysis` entry of `AnalysisResults` (graph-builder.service.ts:54). -/
structure InputAnalysis where
  analysis : String
  keyTerms : List String
  timestamp : String
deriving DecidableEq, Repr

/-- `noveltyAnalysis` entry of `AnalysisResults`. -/
structure NoveltyAnalysis where
  analysis : String
  noveltyScore : Int
  timestamp : String
deriving DecidableEq, Repr

/-- `feasibilityAnalysis` entry of `AnalysisResults`. -/
structure FeasibilityAnalysis where
  analysis : String
  feasibilityScore : Int
  timestamp : String
deriving DecidableEq, Repr

/-- `impactAnalysis` entry of `AnalysisResults`. -/
structure ImpactAnalysis where
  analysis : String
  impactScore : Int
  timestamp : String
deriving DecidableEq, Repr

/-- `synthesis` entry of `AnalysisResults`. -/
structure Synthesis where
  overallScore : Int
  recommendation : String
  summary : String
  timestamp : String
deriving DecidableEq, Repr

/-- The `AnalysisResults` mapping (graph-builder.service.ts:53-80).  Every
key is optional; a `none` field embeds an absent key of the TS object. -/
structure AnalysisResults where
  inputAnalysis : Option InputAnalysis := none
  noveltyAnalysis : Option NoveltyAnalysis := none
  feasibilityAnalysis : Option FeasibilityAnalysis := none
  impactAnalysis : Option ImpactAnalysis := none
  synthesis : Option Synthesis := none
deriving DecidableEq, Repr

/-- The `messages` reducer of `ConcurrentResearchGraphAnnotation`
(graph-builder.service.ts:86): `(a, b) => a.concat(b)`. -/
def messagesReducer (a b : List BaseMessage) : List BaseMessage := a ++ b

/-- One key of a JS object spread `{...a, ...b}`: a key present in `b`
overwrites the one of `a`. -/
def spreadField {α : Type} (x y : Option α) : Option α :=
  match y with
  | some v => some v
  | none => x

/-- The `analysisResults` reducer of `ConcurrentResearchGraphAnnotation`
(graph-builder.service.ts:97): `(a, b) => ({ ...a, ...b })`, key-wise shallow
merge where keys of `b` win. -/
def analysisResultsReducer (a b : AnalysisResults) : AnalysisResults where
  inputAnalysis := spreadField a.inputAnalysis b.inputAnalysis
  noveltyAnalysis := spreadField a.noveltyAnalysis b.noveltyAnalysis
  feasibilityAnalysis := spreadField a.feasibilityAnalysis b.feasibilityAnalysis
  impactAnalysis := spreadField a.impactAnalysis b.impactAnalysis
  synthesis := spreadField a.synthesis b.synthesis

/-- Two partial `AnalysisResults` updates have disjoint key sets: no key is
present (`some`) in both. -/
def DisjointKeys (a b : AnalysisResults) : Prop :=
  ¬(a.inputAnalysis.isSome ∧ b.inputAnalysis.isSome) ∧
  ¬(a.noveltyAnalysis.isSome ∧ b.noveltyAnalysis.isSome) ∧
  ¬(a.feasibilityAnalysis.isSome ∧ b.feasibilityAnalysis.isSome) ∧
  ¬(a.impactAnalysis.isSome ∧ b.impactAnalysis.isSome) ∧
  ¬(a.synthesis.isSome ∧ b.synthesis.isSome)

instance (a b : AnalysisResults) : Decidable (DisjointKeys a b) := by
  unfold DisjointKeys; infer_instance

/- ## Initial graph states
From `graph-builder.service.ts` lines 140-190 and 357-389. -/

/-- The identifier triple passed to every initial-state factory. -/
structure Ids where
  activeThreadId : String
  rootId : String
  userId : String
deriving DecidableEq, Repr

/-- `originalDisclosure` payload of the monetization state
(graph-builder.service.ts:126-130). -/
structure Disclosure where
  nodeId : String
  title : String
  disclosureText : String
deriving DecidableEq, Repr

/-- Initial state shape produced by `makeMonetization`
(graph-builder.service.ts:150-160).  The untyped `marketAnalysis` record is
embedded as a string-keyed association list (empty at initialization). -/
structure MonetizationGraphState where
  activeThreadId : String
  currentMonetizationAgent : String
  marketAnalysis : List (String × String)
  messages : List BaseMessage
  monetizationAgents : List String
  originalDisclosure : Option Disclosure
  rootId : String
  userId : String
deriving DecidableEq, Repr

/-- Initial state shape produced by `makeResearch`
(graph-builder.service.ts:162-170).  The untyped `analysisResults` record is
embedded as a string-keyed association list (empty at initialization). -/
structure ResearchGraphState where
  activeThreadId : String
  analysisResults : List (String × String)
  currentStep : String
  messages : List BaseMessage
  rootId : String
  userId : String
deriving DecidableEq, Repr

/-- Initial state shape produced by `makeConcurrentResearch`
(graph-builder.service.ts:172-180). -/
structure ConcurrentResearchGraphState where
  activeThreadId : String
  analysisResults : AnalysisResults
  currentSteps : List String
  messages : List BaseMessage
  rootId : String
  userId : String
deriving DecidableEq, Repr

/-- Initial state shape produced by `makeDefault`
(graph-builder.service.ts:182-190). -/
structure DefaultGraphState where
  activeThreadId : String
  analysisResults : List (String × String)
  currentStep : String
  messages : List BaseMessage
  rootId : String
  userId : String
deriving DecidableEq, Repr

/-- The union type `GraphState` of graph-builder.service.ts:137-138, tagged by
which factory produced it. -/
inductive GraphState : Type
  | monetization (s : MonetizationGraphState)
  | research (s : ResearchGraphState)
  | concurrentResearch (s : ConcurrentResearchGraphState)
  | defaultGraph (s : DefaultGraphState)
deriving DecidableEq, Repr

/-- `makeMonetization` (graph-builder.service.ts:150-160). -/
def makeMonetization (msgs : List BaseMessage) (ids : Ids) : MonetizationGraphState where
  activeThreadId := ids.activeThreadId
  currentMonetizationAgent := ""
  marketAnalysis := []
  messages := msgs
  monetizationAgents := []
  originalDisclosure := none
  rootId := ids.rootId
  userId := ids.userId

/-- `makeResearch` (graph-builder.service.ts:162-170). -/
def makeResearch (msgs : List BaseMessage) (ids : Ids) : ResearchGraphState where
  activeThreadId := ids.activeThreadId
  analysisResults := []
  currentStep := ""
  messages := msgs
  rootId := ids.rootId
  userId := ids.userId

/-- `makeConcurrentResearch` (graph-builder.service.ts:172-180). -/
def makeConcurrentResearch (msgs : List BaseMessage) (ids : Ids) : ConcurrentResearchGraphState where
  activeThreadId := ids.activeThreadId
  analysisResults := {}
  currentSteps := []
  messages := msgs
  rootId := ids.rootId
  userId := ids.userId

/-- `makeDefault` (graph-builder.service.ts:182-190). -/
def makeDefault (msgs : List BaseMessage) (ids : Ids) : DefaultGraphState where
  activeThreadId := ids.activeThreadId
  analysisResults := []
  currentStep := ""
  messages := msgs
  rootId := ids.rootId
  userId := ids.userId

/-- `GRAPH_TYPES` (graph-builder.service.ts:147). -/
def GRAPH_TYPES : List String :=
  ["monetizationGraph", "researchGraph", "concurrentResearchGraph"]

/-- `isGraphType` (graph-builder.service.ts:370-372). -/
def isGraphType (x : String) : Bool := GRAPH_TYPES.contains x

/-- `makeInitialState` (graph-builder.service.ts:374-389): dispatch on the
(recognized) graph type; the `default` switch arm falls back to `makeDefault`. -/
def makeInitialState (graphType : String) (msgs : List BaseMessage) (ids : Ids) : GraphState :=
  match graphType with
  | "monetizationGraph" => .monetization (makeMonetization msgs ids)
  | "researchGraph" => .research (makeResearch msgs ids)
  | "concurrentResearchGraph" => .concurrentResearch (makeConcurrentResearch msgs ids)
  | _ => .defaultGraph (makeDefault msgs ids)

/-- `getInitialStateRuntime` (graph-builder.service.ts:357-368): an
unrecognized graph type logs a warning and degrades to the default shape. -/
def getInitialStateRuntime (graphTypeStr : String) (msgs : List BaseMessage) (ids : Ids) : GraphState :=
  if isGraphType graphTypeStr then makeInitialState graphTypeStr msgs ids
  else .defaultGraph (makeDefault msgs ids)

/- ## Routing / scoring engine
From the workflow-orchestrator service (`scoreGraphsAndSelectOne`,
`getThreadId`, `makeNewThread`). -/

/-- The per-graph thread-history summary `GraphThreadCountAndMostRecentDate`
of the orchestrator service; `lastUpdatedAt` is the millisecond timestamp. -/
structure GraphThreadCountAndMostRecentDate where
  count : Int
  lastUpdatedAt : Int
  lastUpdatedThreadId : String
  lastUpdatedRootId : String
deriving DecidableEq, Repr

/-- `SelectGraphConfig`: the five externally configured tunables imported
from `select-graph-config.json`. -/
structure SelectGraphConfig where
  fiveMinutes : Int
  pointsForThread : Int
  pointsForRecent : Int
  pointsForWordMatch : Int
  pointsForKeyWordMatch : Int
deriving DecidableEq, Repr

/-- Containment of one character list inside another as contiguous run. -/
def infixOfB (needle : List Char) : List Char → Bool
  | [] => needle.isEmpty
  | c :: rest => List.isPrefixOf needle (c :: rest) || infixOfB needle rest

/-- JavaScript `message.includes(word)`: substring containment. -/
def strIncludes (message word : String) : Bool :=
  infixOfB word.data message.data

/-- JavaScript `word.startsWith(pre)`: prefix containment on the character
sequence. -/
def strStartsWith (word pre : String) : Bool :=
  List.isPrefixOf pre.data word.data

/-- The inner `arr.reduce` of `scoreGraphsAndSelectOne`: fold over one
graph's selection words, adding `pointsForKeyWordMatch` for a contained word
starting with `@` and `pointsForWordMatch` for any other contained word. -/
def wordScore (cfg : SelectGraphConfig) (message : String) (arr : List String) : Int :=
  arr.foldl
    (fun acc word =>
      if strIncludes message word then
        acc + (if strStartsWith word "@" then cfg.pointsForKeyWordMatch else cfg.pointsForWordMatch)
      else acc)
    0

/-- The registry view `getAllGraphsAndSelectionWords()`: graph name to
selection-word list, in registry iteration order. -/
abbrev SelectionRegistry := List (String × List String)

/-- Per-graph thread history, as a map from graph type to summary. -/
abbrev HistoryMap := List (String × GraphThreadCountAndMostRecentDate)

/-- The scores map built by `scoreGraphsAndSelectOne`: a first pass scores
the selection words of every registered graph, a second pass over the same
keys adds `count * pointsForThread` and, when the last update is younger than
the recency window, `pointsForRecent`, for graphs with thread history.
`now` is the value of `Date.now()` during the call.  `addHistoryScore` is
one step of the second pass. -/
def addHistoryScore (cfg : SelectGraphConfig) (now : Int) (hist : HistoryMap)
    (scores : List (String × Int)) (p : String × List String) : List (String × Int) :=
  match List.lookup p.1 hist with
  | none => scores
  | some h =>
    let updateScore := (List.lookup p.1 scores).getD 0
    let updateScore := updateScore + h.count * cfg.pointsForThread
    let updateScore :=
      if now - h.lastUpdatedAt < cfg.fiveMinutes then updateScore + cfg.pointsForRecent
      else updateScore
    setA scores p.1 updateScore

/-- See `addHistoryScore` for the second pass. -/
def scoresOf (cfg : SelectGraphConfig) (now : Int) (message : String)
    (registry : SelectionRegistry) (hist : HistoryMap) : List (String × Int) :=
  let pass1 := registry.map (fun p => (p.1, wordScore cfg message p.2))
  registry.foldl (addHistoryScore cfg now hist) pass1

/-- The final selection loop of `scoreGraphsAndSelectOne`: starting from
`maxScore = -Infinity`, walk the scores in iteration order and replace the
best entry only on a strictly greater score.  An empty accumulator models the
initial `-Infinity`/`undefined` pair, which any finite score beats. -/
def selectLoop : Option (String × Int) → List (String × Int) → Option (String × Int)
  | best, [] => best
  | none, p :: rest => selectLoop (some p) rest
  | some b, p :: rest => selectLoop (if p.2 > b.2 then some p else some b) rest

/-- `scoreGraphsAndSelectOne` of the orchestrator service: score every
registered graph, then return the key with the maximal score (`none` only
when no graph is registered, where the source returns `undefined`). -/
def scoreGraphsAndSelectOne (cfg : SelectGraphConfig) (now : Int) (message : String)
    (registry : SelectionRegistry) (hist : HistoryMap) : Option String :=
  (selectLoop none (scoresOf cfg now message registry hist)).map Prod.fst

/-- The score formula stated by the spec, written from the spec's words:
the sum over the selection words contained in the message of the keyword or
word points, plus thread count times the per-thread points when history
exists, plus the recency points when the history is younger than the window. -/
def specScore (cfg : SelectGraphConfig) (now : Int) (message : String)
    (words : List String) (hist : Option GraphThreadCountAndMostRecentDate) : Int :=
  ((words.filter (fun w => strIncludes message w)).map
      (fun w => if strStartsWith w "@" then cfg.pointsForKeyWordMatch else cfg.pointsForWordMatch)).sum
  + (match hist with
     | some h => h.count * cfg.pointsForThread
     | none => 0)
  + (match hist with
     | some h => if now - h.lastUpdatedAt < cfg.fiveMinutes then cfg.pointsForRecent else 0
     | none => 0)

/- ## Graph registry and compiler
From `graph-builder.service.ts` lines 204-347. -/

/-- The `START` sentinel of the graph library (`"__start__"`). -/
def START : String := "__start__"

/-- The `END` sentinel of the graph library (`"__end__"`). -/
def ENDS : String := "__end__"

/-- A graph specification item `GraphJsonGraphSpec`
(graph-builder.service.ts:26-32). -/
structure GraphJsonGraphSpec where
  name : String
  annotationType : Option String := none
  nodes : List String := []
  edges : List (String × String) := []
  selectionWords : List String := []
deriving DecidableEq, Repr

/-- A `StateGraph` builder, reduced to the graph shape it accumulates: the
annotation it was constructed over, the added node names, and the added
edges (with sentinels already mapped).  The bound node callables carry no
information the verified claims inspect, so only node names are kept. -/
structure Builder where
  annotation : String
  nodes : List String := []
  edges : List (String × String) := []
deriving DecidableEq, Repr

/-- A compiled graph (`builder.compile({checkpointer})`): the immutable
shape of the builder at compilation time. -/
structure CompiledGraph where
  annotation : String
  nodes : List String
  edges : List (String × String)
deriving DecidableEq, Repr

/-- `builder.compile` freezes the builder's shape. -/
def Builder.compile (b : Builder) : CompiledGraph where
  annotation := b.annotation
  nodes := b.nodes
  edges := b.edges

/-- `builder.addNode(name, fn)`. -/
def Builder.addNode (b : Builder) (n : String) : Builder :=
  { b with nodes := b.nodes ++ [n] }

/-- Modelled from the spec: `StateGraph.addEdge` of the underlying graph
library, whose source is not part of this repository.  Per the spec,
registration "validates edge endpoints against the node set ... (fails with
`UnresolvedNodeError` naming the missing node)": an endpoint that is not the
START/END sentinel must name an added node, otherwise the call fails. -/
def Builder.addEdge (b : Builder) (s e : String) : Except String Builder :=
  if s != START && !(b.nodes.contains s) then
    .error ("UnresolvedNodeError: " ++ s)
  else if e != ENDS && !(b.nodes.contains e) then
    .error ("UnresolvedNodeError: " ++ e)
  else
    .ok { b with edges := b.edges ++ [(s, e)] }

/-- The keys of the service's fixed `annotationsMap`
(graph-builder.service.ts:211-216). -/
def annotationsMap : List String :=
  ["ResearchGraphAnnotation", "MonetizationGraphAnnotation",
   "ConcurrentResearchGraphAnnotation", "DefaultGraphAnnotation"]

/-- The mutable registry fields of `GraphBuilderService`: compiled graphs,
stored builders, selection words, and the node-function registry
(`nodeFuctionMap`, kept as the set of registered node names since the
callables themselves are opaque to the verified claims). -/
structure BuilderState where
  dynamicGraphs : List (String × CompiledGraph) := []
  dynamicGraphBuilders : List (String × Builder) := []
  graphSelectionWords : List (String × List String) := []
  nodeFuctionMap : List String := []
deriving DecidableEq, Repr

/-- The error thrown at graph-builder.service.ts:303 for a node name with no
registered node function. -/
def nodeNotRegisteredMsg (nodeName graphName : String) : String :=
  "Node function " ++ nodeName ++ " not registered for graph " ++ graphName

/-- The sentinel mapping applied to both edge endpoints
(graph-builder.service.ts:312-321): `"__start__"` maps to `START` and
`"__end__"` maps to `END` (both identities on the underlying strings). -/
def mapStartEndpoint (s : String) : String := if s == "__start__" then START else s

/-- See `mapStartEndpoint`. -/
def mapEndEndpoint (e : String) : String := if e == "__end__" then ENDS else e

/-- `registerGraphFromSpec` (graph-builder.service.ts:281-328).  A missing or
unknown annotation logs a warning and returns without touching the state; a
node name with no registered function throws; on success the builder and the
selection words are stored under the spec's name.  The compiled-graph cache
`dynamicGraphs` is not touched on any path. -/
def registerGraphFromSpec (st : BuilderState) (item : GraphJsonGraphSpec) :
    Except String BuilderState :=
  match item.annotationType with
  | none => .ok st
  | some ann =>
    if !(annotationsMap.contains ann) then .ok st
    else do
      let builder0 : Builder := { annotation := ann }
      let builder1 ← item.nodes.foldlM
        (fun b nodeName =>
          if st.nodeFuctionMap.contains nodeName then .ok (b.addNode nodeName)
          else .error (nodeNotRegisteredMsg nodeName item.name))
        builder0
      let builder2 ← item.edges.foldlM
        (fun b p => b.addEdge (mapStartEndpoint p.1) (mapEndEndpoint p.2))
        builder1
      .ok { st with
            dynamicGraphBuilders := setA st.dynamicGraphBuilders item.name builder2,
            graphSelectionWords := setA st.graphSelectionWords item.name item.selectionWords }

/-- `getDynamicGraph` (graph-builder.service.ts:335-347): return the cached
compiled graph when present; otherwise compile the stored builder on first
request and cache the result; `none` when the name was never registered. -/
def getDynamicGraph (st : BuilderState) (name : String) :
    Option CompiledGraph × BuilderState :=
  match List.lookup name st.dynamicGraphs with
  | some graph => (some graph, st)
  | none =>
    match List.lookup name st.dynamicGraphBuilders with
    | some builder =>
      let compiled := builder.compile
      (some compiled, { st with dynamicGraphs := setA st.dynamicGraphs name compiled })
    | none => (none, st)

/- ## Thread store and thread lifecycle
From `src/thread-store/inmemory-thread-store.repository.ts` and the
orchestrator service's `getThreadId`/`makeNewThread`. -/

/-- `ThreadRecord` (thread-store.types): timestamps are millisecond values. -/
structure ThreadRecord where
  id : String
  userId : String
  rootThreadId : String
  threadId : String
  graphType : String
  createdAt : Int
  lastUpdatedAt : Int
deriving DecidableEq, Repr

/-- `CreateThreadDto` (thread-store.types). -/
structure CreateThreadDto where
  userId : String
  rootThreadId : String
  threadId : String
  graphType : String
  createdAt : Option Int := none
  lastUpdatedAt : Option Int := none
deriving DecidableEq, Repr

/-- The repository's backing `Map`, keyed by `makeKey(userId, threadId)`. -/
abbrev ThreadStore := List (String × ThreadRecord)

/-- `makeKey` (inmemory-thread-store.repository.ts:9-11). -/
def makeKey (userId threadId : String) : String := userId ++ "::" ++ threadId

/-- `createThread` (inmemory-thread-store.repository.ts:17-36): when the key
already exists, return the stored record and leave the store unchanged;
otherwise build the record (defaulting `createdAt` to `now` and
`lastUpdatedAt` to `createdAt`) and store it.  `now` is the value of
`new Date()` during the call.  The body runs with no intervening `await`, so
the check-then-set pair is atomic on the JS event loop and two overlapping
calls execute back to back. -/
def createThread (store : ThreadStore) (data : CreateThreadDto) (now : Int) :
    ThreadRecord × ThreadStore :=
  let key := makeKey data.userId data.threadId
  match List.lookup key store with
  | some existing => (existing, store)
  | none =>
    let createdAt := data.createdAt.getD now
    let lastUpdatedAt := data.lastUpdatedAt.getD createdAt
    let record : ThreadRecord :=
      { id := key, userId := data.userId, rootThreadId := data.rootThreadId,
        threadId := data.threadId, graphType := data.graphType,
        createdAt := createdAt, lastUpdatedAt := lastUpdatedAt }
    (record, setA store key record)

/-- `updateLastUpdatedAt` (inmemory-thread-store.repository.ts:61-85).  When
the record exists, only `lastUpdatedAt` is replaced (by the supplied
timestamp or `now`).  When it does not, the source's branch builds its
"fresh" record out of the fields of `current`, which is `undefined` there:
evaluating `current.userId` throws a `TypeError` before anything is stored,
so the branch can only fail. -/
def updateLastUpdatedAt (store : ThreadStore) (userId threadId : String)
    (lastUpdatedAt : Option Int) (now : Int) :
    Except String (ThreadRecord × ThreadStore) :=
  let key := makeKey userId threadId
  match List.lookup key store with
  | none => .error "TypeError: Cannot read properties of undefined"
  | some current =>
    let updated := { current with lastUpdatedAt := lastUpdatedAt.getD now }
    .ok (updated, setA store key updated)

/-- The `ThreadAndRoot` pair returned by the thread-resolution path. -/
structure ThreadAndRoot where
  threadId : String
  rootId : String
deriving DecidableEq, Repr

/-- `makeNewThread` of the orchestrator service: mint
`thread_${Date.now()}_${randomSuffix}` and derive the root and thread ids,
then persist through the thread store.  `now` embeds `Date.now()` and
`randPart` the random base-36 suffix.  The intermediate `ThreadStoreService`
(not among the provided sources) is modelled from the spec as forwarding
creation directly to the repository's `createThread`. -/
def newThreadIdRandomPart (now : Int) (randPart : String) : String :=
  "thread_" ++ toString now ++ "_" ++ randPart

/-- See `makeNewThread`; `newThreadIdRandomPart` is the
`thread_${Date.now()}_${Math.random().toString(36).substring(7)}` string. -/
def makeNewThread (store : ThreadStore) (userId graphType : String)
    (now : Int) (randPart : String) : ThreadAndRoot × ThreadStore :=
  let part := newThreadIdRandomPart now randPart
  let rootId := "root_" ++ part
  let threadId := graphType ++ "_" ++ part
  let result := createThread store
    { userId := userId, rootThreadId := rootId, threadId := threadId,
      graphType := graphType } now
  ({ threadId := result.1.threadId, rootId := result.1.rootThreadId }, result.2)

/-- `getThreadId` of the orchestrator service: when the user's history
summary has the selected graph type, bump the most recent thread's
`lastUpdatedAt` and return its ids; otherwise mint and persist a new thread.
The intermediate `ThreadStoreService.updateLastUpdatedAtFor` (not among the
provided sources) is modelled from the spec as forwarding to the
repository's `updateLastUpdatedAt` with no explicit timestamp. -/
def getThreadId (store : ThreadStore) (userId graphType : String)
    (threadTypeCountsByUser : HistoryMap) (now : Int) (randPart : String) :
    Except String (ThreadAndRoot × ThreadStore) :=
  match List.lookup graphType threadTypeCountsByUser with
  | some h => do
    let r ← updateLastUpdatedAt store userId h.lastUpdatedThreadId none now
    .ok ({ threadId := h.lastUpdatedThreadId, rootId := h.lastUpdatedRootId }, r.2)
  | none => .ok (makeNewThread store userId graphType now randPart)

/- ## Association-list lemmas -/

theorem lookup_cons {β : Type} (a k : String) (b : β) (t : List (String × β)) :
    List.lookup k ((a, b) :: t) = if k = a then some b else List.lookup k t := by
  by_cases h : k = a
  · simp [List.lookup, h]
  · have hb : (k == a) = false := beq_eq_false_iff_ne.mpr h
    simp [List.lookup, hb, h]

theorem setA_cons {β : Type} (a k : String) (b v : β) (t : List (String × β)) :
    setA ((a, b) :: t) k v =
      if a = k then (k, v) :: t else (a, b) :: setA t k v := by
  by_cases h : a = k
  · simp [setA, h]
  · have hb : (a == k) = false := beq_eq_false_iff_ne.mpr h
    simp [setA, hb, h]

theorem lookup_setA_self {β : Type} (l : List (String × β)) (k : String) (v : β) :
    List.lookup k (setA l k v) = some v := by
  induction l with
  | nil => simp [setA, lookup_cons]
  | cons p t ih =>
    obtain ⟨a, b⟩ := p
    by_cases h : a = k
    · simp [setA_cons, h, lookup_cons]
    · simp [setA_cons, h, lookup_cons, Ne.symm h, ih]

theorem lookup_setA_ne {β : Type} (l : List (String × β)) (k : String) (v : β)
    (k' : String) (h : k' ≠ k) :
    List.lookup k' (setA l k v) = List.lookup k' l := by
  induction l with
  | nil => simp [setA, lookup_cons, h]
  | cons p t ih =>
    obtain ⟨a, b⟩ := p
    by_cases hp : a = k
    · subst hp
      simp [setA_cons, lookup_cons, h]
    · by_cases hk' : k' = a
      · simp [setA_cons, hp, lookup_cons, hk']
      · simp [setA_cons, hp, lookup_cons, hk', ih]

theorem setA_eq_append {β : Type} (l : List (String × β)) (k : String) (v : β)
    (h : List.lookup k l = none) :
    setA l k v = l ++ [(k, v)] := by
  induction l with
  | nil => simp [setA]
  | cons p t ih =>
    obtain ⟨a, b⟩ := p
    rw [lookup_cons] at h
    by_cases hp : k = a
    · simp [hp] at h
    · rw [if_neg hp] at h
      simp [setA_cons, Ne.symm hp, ih h]

theorem setA_ne_nil {β : Type} (l : List (String × β)) (k : String) (v : β) :
    setA l k v ≠ [] := by
  cases l with
  | nil => simp [setA]
  | cons p t =>
    obtain ⟨a, b⟩ := p
    rw [setA_cons]
    split <;> simp

theorem setA_length {β : Type} (l : List (String × β)) (k : String) (v : β)
    (h : (List.lookup k l).isSome) :
    (setA l k v).length = l.length := by
  induction l with
  | nil => simp [List.lookup] at h
  | cons p t ih =>
    obtain ⟨a, b⟩ := p
    rw [lookup_cons] at h
    by_cases hp : k = a
    · simp [setA_cons, hp]
    · rw [if_neg hp] at h
      simp [setA_cons, Ne.symm hp, ih h]

theorem lookup_mem {β : Type} {l : List (String × β)} {k : String} {v : β}
    (h : List.lookup k l = some v) : (k, v) ∈ l := by
  induction l with
  | nil => simp [List.lookup] at h
  | cons p t ih =>
    obtain ⟨a, b⟩ := p
    rw [lookup_cons] at h
    by_cases hp : k = a
    · rw [if_pos hp] at h
      cases h
      subst hp
      exact List.mem_cons_self _ _
    · rw [if_neg hp] at h
      exact List.mem_cons_of_mem _ (ih h)

theorem countP_key_zero {β : Type} {l : List (String × β)} {k : String}
    (h : List.lookup k l = none) :
    l.countP (fun p => p.1 == k) = 0 := by
  induction l with
  | nil => simp
  | cons p t ih =>
    obtain ⟨a, b⟩ := p
    rw [lookup_cons] at h
    by_cases hp : k = a
    · simp [hp] at h
    · rw [if_neg hp] at h
      simp [List.countP_cons, ih h, Ne.symm hp]

/- ## Reducer lemmas -/

theorem spreadField_comm {α : Type} {x y : Option α} (h : ¬(x.isSome ∧ y.isSome)) :
    spreadField x y = spreadField y x := by
  cases x <;> cases y <;> simp [spreadField] at h ⊢

/- ## Claim theorems: state model -/

/-- C6: for every graph-type string that is not a recognized graph type,
`getInitialStateRuntime` does not fail and returns the default initial state
built by `makeDefault`; each recognized graph type yields its specific
initial state. -/
theorem getInitialStateRuntime_fallback (s : String) (msgs : List BaseMessage) (ids : Ids) :
    (isGraphType s = false →
      getInitialStateRuntime s msgs ids = .defaultGraph (makeDefault msgs ids)) ∧
    getInitialStateRuntime "monetizationGraph" msgs ids =
      .monetization (makeMonetization msgs ids) ∧
    getInitialStateRuntime "researchGraph" msgs ids =
      .research (makeResearch msgs ids) ∧
    getInitialStateRuntime "concurrentResearchGraph" msgs ids =
      .concurrentResearch (makeConcurrentResearch msgs ids) := by
  refine ⟨fun h => ?_, rfl, rfl, rfl⟩
  simp [getInitialStateRuntime, h]

/-- C6 witness: the unrecognized graph type `"bogusGraph"` degrades to the
default state shape. -/
theorem getInitialStateRuntime_fallback_witness :
    isGraphType "bogusGraph" = false ∧
    getInitialStateRuntime "bogusGraph" [] ⟨"t", "r", "u"⟩ =
      .defaultGraph (makeDefault [] ⟨"t", "r", "u"⟩) :=
  ⟨by decide, (getInitialStateRuntime_fallback "bogusGraph" [] ⟨"t", "r", "u"⟩).1 (by decide)⟩

/-- C7: the append reducer used for `messages` is associative (reducing with
partial `a` then `b` equals reducing once with `concat(a, b)`); the
shallow-merge reducer used for `analysisResults` is order-independent on two
partials with disjoint key sets, and on an overlapping key the value from the
partial applied last wins. -/
theorem reducer_algebra :
    (∀ s a b : List BaseMessage,
      messagesReducer (messagesReducer s a) b = messagesReducer s (a ++ b)) ∧
    (∀ a b : AnalysisResults, DisjointKeys a b →
      analysisResultsReducer a b = analysisResultsReducer b a) ∧
    (∀ a b : AnalysisResults,
      (∀ v, b.inputAnalysis = some v →
        (analysisResultsReducer a b).inputAnalysis = some v) ∧
      (∀ v, b.noveltyAnalysis = some v →
        (analysisResultsReducer a b).noveltyAnalysis = some v) ∧
      (∀ v, b.feasibilityAnalysis = some v →
        (analysisResultsReducer a b).feasibilityAnalysis = some v) ∧
      (∀ v, b.impactAnalysis = some v →
        (analysisResultsReducer a b).impactAnalysis = some v) ∧
      (∀ v, b.synthesis = some v →
        (analysisResultsReducer a b).synthesis = some v)) := by
  refine ⟨fun s a b => ?_, fun a b h => ?_, fun a b => ?_⟩
  · simp [messagesReducer, List.append_assoc]
  · obtain ⟨h1, h2, h3, h4, h5⟩ := h
    obtain ⟨a1, a2, a3, a4, a5⟩ := a
    obtain ⟨b1, b2, b3, b4, b5⟩ := b
    simp only [analysisResultsReducer, AnalysisResults.mk.injEq]
    exact ⟨spreadField_comm h1, spreadField_comm h2, spreadField_comm h3,
           spreadField_comm h4, spreadField_comm h5⟩
  · refine ⟨fun v hv => ?_, fun v hv => ?_, fun v hv => ?_, fun v hv => ?_, fun v hv => ?_⟩ <;>
      simp [analysisResultsReducer, spreadField, hv]

/-- Sample partial updates used to witness the reducer algebra. -/
def sampleInput : AnalysisResults := { inputAnalysis := some ⟨"ia", [], "t0"⟩ }

/-- See `sampleInput`. -/
def sampleNovelty : AnalysisResults := { noveltyAnalysis := some ⟨"na", 1, "t1"⟩ }

/-- See `sampleInput`. -/
def sampleSynthesis : Synthesis := ⟨7, "rec", "sum", "t2"⟩

/-- See `sampleInput`. -/
def sampleWithSynthesis : AnalysisResults := { synthesis := some sampleSynthesis }

/-- C7 witness: the reducer algebra at concrete partial updates. -/
theorem reducer_algebra_witness :
    messagesReducer (messagesReducer ([] : List BaseMessage) [.human "a"]) [.ai "b"]
      = messagesReducer [] ([BaseMessage.human "a"] ++ [BaseMessage.ai "b"]) ∧
    analysisResultsReducer sampleInput sampleNovelty
      = analysisResultsReducer sampleNovelty sampleInput ∧
    (analysisResultsReducer sampleInput sampleWithSynthesis).synthesis = some sampleSynthesis :=
  ⟨reducer_algebra.1 [] [.human "a"] [.ai "b"],
   reducer_algebra.2.1 sampleInput sampleNovelty (by decide),
   (reducer_algebra.2.2 sampleInput sampleWithSynthesis).2.2.2.2 sampleSynthesis rfl⟩

/- ## Claim theorems: thread store -/

/-- C10: `updateLastUpdatedAt` on a missing `(userId, threadId)` never
returns a record — its not-found branch dereferences the missing record and
throws, so no record is ever created by an update; on an existing record only
`lastUpdatedAt` changes, every other field is preserved, and entries under
other keys are untouched. -/
theorem updateLastUpdatedAt_spec (store : ThreadStore) (userId threadId : String)
    (ts : Option Int) (now : Int) :
    (List.lookup (makeKey userId threadId) store = none →
      updateLastUpdatedAt store userId threadId ts now =
        .error "TypeError: Cannot read properties of undefined") ∧
    (∀ r : ThreadRecord, List.lookup (makeKey userId threadId) store = some r →
      updateLastUpdatedAt store userId threadId ts now =
        .ok (⟨r.id, r.userId, r.rootThreadId, r.threadId, r.graphType, r.createdAt, ts.getD now⟩,
          setA store (makeKey userId threadId)
            ⟨r.id, r.userId, r.rootThreadId, r.threadId, r.graphType, r.createdAt, ts.getD now⟩) ∧
      (∀ k, k ≠ makeKey userId threadId →
        List.lookup k
          (setA store (makeKey userId threadId)
            ⟨r.id, r.userId, r.rootThreadId, r.threadId, r.graphType, r.createdAt, ts.getD now⟩) =
        List.lookup k store)) := by
  constructor
  · intro h
    simp [updateLastUpdatedAt, h]
  · intro r h
    refine ⟨?_, fun k hk => lookup_setA_ne _ _ _ _ hk⟩
    simp [updateLastUpdatedAt, h]

/-- C10 witness: the two branches at a concrete store holding one record. -/
theorem updateLastUpdatedAt_spec_witness :
    updateLastUpdatedAt [("u::t1", ⟨"u::t1", "u", "r1", "t1", "g", 5, 5⟩)] "u" "t9" none 42 =
      .error "TypeError: Cannot read properties of undefined" ∧
    updateLastUpdatedAt [("u::t1", ⟨"u::t1", "u", "r1", "t1", "g", 5, 5⟩)] "u" "t1" none 42 =
      .ok (⟨"u::t1", "u", "r1", "t1", "g", 5, 42⟩,
        setA [("u::t1", ⟨"u::t1", "u", "r1", "t1", "g", 5, 5⟩)] "u::t1"
          ⟨"u::t1", "u", "r1", "t1", "g", 5, 42⟩) :=
  ⟨(updateLastUpdatedAt_spec [("u::t1", ⟨"u::t1", "u", "r1", "t1", "g", 5, 5⟩)] "u" "t9"
      none 42).1 (by decide),
   ((updateLastUpdatedAt_spec [("u::t1", ⟨"u::t1", "u", "r1", "t1", "g", 5, 5⟩)] "u" "t1"
      none 42).2 ⟨"u::t1", "u", "r1", "t1", "g", 5, 5⟩ (by decide)).1⟩

/-- C9 counterexample: two thread-creation requests for the same new
`(userId, graphType)` that mint distinct thread ids (different `Date.now()` /
random suffixes, the generic case of the race) leave TWO records for that
`(userId, graphType)` in the store, refuting the claim that the store cannot
end up with two records for the same new `(userId, graphType)`. -/
theorem makeNewThread_race_counterexample :
    (makeNewThread (makeNewThread [] "u" "g" 100 "aa").2 "u" "g" 200 "bb").2 =
      [("u::g_thread_100_aa",
        ⟨"u::g_thread_100_aa", "u", "root_thread_100_aa", "g_thread_100_aa", "g", 100, 100⟩),
       ("u::g_thread_200_bb",
        ⟨"u::g_thread_200_bb", "u", "root_thread_200_bb", "g_thread_200_bb", "g", 200, 200⟩)] := by
  decide

/-- C9 amended: idempotence under races holds at the `(userId, threadId)`
key, the repository's actual conflict key: when the winner has stored its
record, a losing `createThread` with the same `(userId, threadId)` leaves the
store unchanged and observes the winner's record, and the store holds exactly
one record under that key.  (Racing `makeNewThread` calls that generate
distinct thread ids do create distinct records, as the counterexample shows.) -/
theorem createThread_first_writer_wins (store : ThreadStore) (d1 d2 : CreateThreadDto)
    (n1 n2 : Int)
    (hkey : makeKey d2.userId d2.threadId = makeKey d1.userId d1.threadId)
    (hnone : List.lookup (makeKey d1.userId d1.threadId) store = none) :
    createThread (createThread store d1 n1).2 d2 n2 =
      ((createThread store d1 n1).1, (createThread store d1 n1).2) ∧
    (createThread store d1 n1).2.countP
      (fun p => p.1 == makeKey d1.userId d1.threadId) = 1 := by
  have h1 : createThread store d1 n1 =
      (⟨makeKey d1.userId d1.threadId, d1.userId, d1.rootThreadId, d1.threadId, d1.graphType,
        d1.createdAt.getD n1, d1.lastUpdatedAt.getD (d1.createdAt.getD n1)⟩,
       setA store (makeKey d1.userId d1.threadId)
        ⟨makeKey d1.userId d1.threadId, d1.userId, d1.rootThreadId, d1.threadId, d1.graphType,
         d1.createdAt.getD n1, d1.lastUpdatedAt.getD (d1.createdAt.getD n1)⟩) := by
    simp [createThread, hnone]
  constructor
  · rw [h1]
    simp only [createThread, hkey, lookup_setA_self]
  · rw [h1]
    rw [setA_eq_append _ _ _ hnone]
    rw [List.countP_append, countP_key_zero hnone]
    simp

/-- C9 amended witness: a losing duplicate creation at a concrete store. -/
theorem createThread_first_writer_wins_witness :
    createThread (createThread [] ⟨"u", "r1", "t1", "g", none, none⟩ 100).2
        ⟨"u", "r2", "t1", "g", none, none⟩ 200 =
      ((createThread [] ⟨"u", "r1", "t1", "g", none, none⟩ 100).1,
       (createThread [] ⟨"u", "r1", "t1", "g", none, none⟩ 100).2) ∧
    (createThread [] ⟨"u", "r1", "t1", "g", none, none⟩ 100).2.countP
      (fun p => p.1 == makeKey "u" "t1") = 1 :=
  createThread_first_writer_wins [] ⟨"u", "r1", "t1", "g", none, none⟩
    ⟨"u", "r2", "t1", "g", none, none⟩ 100 200 (by decide) (by decide)

/-- C8: resolving a thread for a graph type the user already has history for
returns that history's `threadId`/`rootId` and only advances the stored
record's `lastUpdatedAt` — the store keeps the same number of records, so no
second thread is created for the `(userId, graphType)`; resolving for a graph
type with no history mints the `(graphType_thread_now_rand, root_thread_now_rand)`
pair, persists one new record, and — whenever no stored thread id ends with
the freshly generated suffix — the minted thread id is distinct from every
stored thread id. -/
theorem getThreadId_spec (store : ThreadStore) (userId graphType : String)
    (counts : HistoryMap) (now : Int) (randPart : String) :
    (∀ h r, List.lookup graphType counts = some h →
      List.lookup (makeKey userId h.lastUpdatedThreadId) store = some r →
      getThreadId store userId graphType counts now randPart =
        .ok (⟨h.lastUpdatedThreadId, h.lastUpdatedRootId⟩,
          setA store (makeKey userId h.lastUpdatedThreadId)
            ⟨r.id, r.userId, r.rootThreadId, r.threadId, r.graphType, r.createdAt, now⟩) ∧
      (setA store (makeKey userId h.lastUpdatedThreadId)
          ⟨r.id, r.userId, r.rootThreadId, r.threadId, r.graphType, r.createdAt, now⟩).length
        = store.length) ∧
    (List.lookup graphType counts = none →
      List.lookup (makeKey userId (graphType ++ "_" ++ newThreadIdRandomPart now randPart))
          store = none →
      getThreadId store userId graphType counts now randPart =
        .ok (⟨graphType ++ "_" ++ newThreadIdRandomPart now randPart,
              "root_" ++ newThreadIdRandomPart now randPart⟩,
          store ++
            [(makeKey userId (graphType ++ "_" ++ newThreadIdRandomPart now randPart),
              ⟨makeKey userId (graphType ++ "_" ++ newThreadIdRandomPart now randPart),
               userId,
               "root_" ++ newThreadIdRandomPart now randPart,
               graphType ++ "_" ++ newThreadIdRandomPart now randPart,
               graphType, now, now⟩)]) ∧
      ((∀ p ∈ store, ∀ q : String,
          p.2.threadId ≠ q ++ "_" ++ newThreadIdRandomPart now randPart) →
        ∀ p ∈ store, ∀ tr s',
          getThreadId store userId graphType counts now randPart = .ok (tr, s') →
          p.2.threadId ≠ tr.threadId)) := by
  constructor
  · intro h r hc hr
    refine ⟨?_, setA_length _ _ _ (by simp [hr])⟩
    simp only [getThreadId, hc, updateLastUpdatedAt, hr]
    rfl
  · intro hc hkey
    have hmain :
        getThreadId store userId graphType counts now randPart =
          .ok (⟨graphType ++ "_" ++ newThreadIdRandomPart now randPart,
                "root_" ++ newThreadIdRandomPart now randPart⟩,
            store ++
              [(makeKey userId (graphType ++ "_" ++ newThreadIdRandomPart now randPart),
                ⟨makeKey userId (graphType ++ "_" ++ newThreadIdRandomPart now randPart),
                 userId,
                 "root_" ++ newThreadIdRandomPart now randPart,
                 graphType ++ "_" ++ newThreadIdRandomPart now randPart,
                 graphType, now, now⟩)]) := by
      simp [getThreadId, hc, makeNewThread, createThread, hkey, setA_eq_append _ _ _ hkey]
    refine ⟨hmain, fun hfresh p hp tr s' heq => ?_⟩
    rw [hmain] at heq
    have htr : tr = ⟨graphType ++ "_" ++ newThreadIdRandomPart now randPart,
        "root_" ++ newThreadIdRandomPart now randPart⟩ := by
      cases heq
      rfl
    rw [htr]
    exact hfresh p hp graphType

/-- C8 witness: both branches at a concrete store — reuse for a graph type
with history, fresh minting for one without. -/
theorem getThreadId_spec_witness :
    getThreadId [("u::t1", ⟨"u::t1", "u", "r1", "t1", "g", 5, 5⟩)] "u" "g"
        [("g", ⟨1, 5, "t1", "r1"⟩)] 42 "zz" =
      .ok (⟨"t1", "r1"⟩,
        setA [("u::t1", ⟨"u::t1", "u", "r1", "t1", "g", 5, 5⟩)] "u::t1"
          ⟨"u::t1", "u", "r1", "t1", "g", 5, 42⟩) ∧
    getThreadId [("u::t1", ⟨"u::t1", "u", "r1", "t1", "g", 5, 5⟩)] "u" "h" [] 42 "zz" =
      .ok (⟨"h_thread_42_zz", "root_thread_42_zz"⟩,
        [("u::t1", ⟨"u::t1", "u", "r1", "t1", "g", 5, 5⟩)] ++
          [("u::h_thread_42_zz",
            ⟨"u::h_thread_42_zz", "u", "root_thread_42_zz", "h_thread_42_zz", "h", 42, 42⟩)]) :=
  ⟨((getThreadId_spec [("u::t1", ⟨"u::t1", "u", "r1", "t1", "g", 5, 5⟩)] "u" "g"
      [("g", ⟨1, 5, "t1", "r1"⟩)] 42 "zz").1 ⟨1, 5, "t1", "r1"⟩
      ⟨"u::t1", "u", "r1", "t1", "g", 5, 5⟩ (by decide) (by decide)).1,
   ((getThreadId_spec [("u::t1", ⟨"u::t1", "u", "r1", "t1", "g", 5, 5⟩)] "u" "h"
      [] 42 "zz").2 (by decide) (by decide)).1⟩

/- ## Scoring lemmas -/

theorem foldl_if_add (p : String → Bool) (f : String → Int) (arr : List String) (acc : Int) :
    arr.foldl (fun a w => if p w then a + f w else a) acc
      = acc + ((arr.filter p).map f).sum := by
  induction arr generalizing acc with
  | nil => simp
  | cons w t ih =>
    by_cases hp : p w
    · simp only [List.foldl_cons, List.filter_cons, hp, if_true, ite_true, List.map_cons,
        List.sum_cons, ih]
      ring
    · simp [hp, ih]

theorem wordScore_eq_sum (cfg : SelectGraphConfig) (message : String) (arr : List String) :
    wordScore cfg message arr
      = ((arr.filter (fun w => strIncludes message w)).map
          (fun w => if strStartsWith w "@" then cfg.pointsForKeyWordMatch
                    else cfg.pointsForWordMatch)).sum := by
  unfold wordScore
  rw [foldl_if_add]
  simp

theorem addHistoryScore_cons (cfg : SelectGraphConfig) (now : Int) (hist : HistoryMap)
    (hd : String × Int) (t : List (String × Int)) (q : String × List String)
    (hq : q.1 ≠ hd.1) :
    addHistoryScore cfg now hist (hd :: t) q = hd :: addHistoryScore cfg now hist t q := by
  obtain ⟨a, b⟩ := hd
  unfold addHistoryScore
  cases hql : List.lookup q.1 hist with
  | none => rfl
  | some h =>
    simp only [lookup_cons, setA_cons]
    rw [if_neg hq, if_neg (Ne.symm hq)]

theorem foldl_addHistory_cons (cfg : SelectGraphConfig) (now : Int) (hist : HistoryMap)
    (rest : List (String × List String)) (hd : String × Int) (t : List (String × Int))
    (hne : ∀ p ∈ rest, p.1 ≠ hd.1) :
    rest.foldl (addHistoryScore cfg now hist) (hd :: t)
      = hd :: rest.foldl (addHistoryScore cfg now hist) t := by
  induction rest generalizing t with
  | nil => rfl
  | cons q rest ih =>
    have hq : q.1 ≠ hd.1 := hne q (List.mem_cons_self _ _)
    simp only [List.foldl_cons, addHistoryScore_cons cfg now hist hd t q hq]
    exact ih _ (fun p hp => hne p (List.mem_cons_of_mem _ hp))

theorem scoresOf_ne_nil (cfg : SelectGraphConfig) (now : Int) (message : String)
    (registry : SelectionRegistry) (hist : HistoryMap) (hne : registry ≠ []) :
    scoresOf cfg now message registry hist ≠ [] := by
  have hfold : ∀ (l : List (String × List String)) (init : List (String × Int)),
      init ≠ [] → l.foldl (addHistoryScore cfg now hist) init ≠ [] := by
    intro l
    induction l with
    | nil => exact fun init h => h
    | cons q rest ih =>
      intro init h
      apply ih
      unfold addHistoryScore
      cases List.lookup q.1 hist with
      | none => exact h
      | some gh => exact setA_ne_nil _ _ _
  unfold scoresOf
  apply hfold
  cases registry with
  | nil => exact absurd rfl hne
  | cons p t => simp

theorem selectLoop_split (l : List (String × Int)) (b : String × Int) :
    ∃ k s l₁ l₂, selectLoop (some b) l = some (k, s) ∧
      b :: l = l₁ ++ (k, s) :: l₂ ∧
      (∀ p ∈ l₁, p.2 < s) ∧ (∀ p ∈ l₂, p.2 ≤ s) := by
  induction l generalizing b with
  | nil => exact ⟨b.1, b.2, [], [], rfl, rfl, by simp, by simp⟩
  | cons p rest ih =>
    by_cases hgt : p.2 > b.2
    · obtain ⟨k, s, l₁, l₂, hsel, hsplit, hl₁, hl₂⟩ := ih p
      refine ⟨k, s, b :: l₁, l₂, ?_, ?_, ?_, hl₂⟩
      · simpa [selectLoop, hgt] using hsel
      · simpa using congrArg (b :: ·) hsplit
      · intro x hx
        rcases List.mem_cons.mp hx with hx | hx
        · subst hx
          cases l₁ with
          | nil =>
            simp only [List.nil_append] at hsplit
            have hp : p = (k, s) := (List.cons.injEq _ _ _ _ ▸ hsplit).1
            calc x.2 < p.2 := hgt
              _ = s := by rw [hp]
          | cons c l₁' =>
            simp only [List.cons_append] at hsplit
            have hp : p = c := (List.cons.injEq _ _ _ _ ▸ hsplit).1
            calc x.2 < p.2 := hgt
              _ < s := hp ▸ hl₁ c (List.mem_cons_self _ _)
        · exact hl₁ x hx
    · have hle : p.2 ≤ b.2 := le_of_not_lt hgt
      obtain ⟨k, s, l₁, l₂, hsel, hsplit, hl₁, hl₂⟩ := ih b
      cases l₁ with
      | nil =>
        simp only [List.nil_append] at hsplit
        have hb : b = (k, s) := (List.cons.injEq _ _ _ _ ▸ hsplit).1
        have hrest : rest = l₂ := (List.cons.injEq _ _ _ _ ▸ hsplit).2
        refine ⟨k, s, [], p :: l₂, ?_, ?_, by simp, ?_⟩
        · simpa [selectLoop, hgt] using hsel
        · rw [List.nil_append, ← hb, ← hrest]
        · intro x hx
          rcases List.mem_cons.mp hx with hx | hx
          · subst hx
            calc x.2 ≤ b.2 := hle
              _ = s := by rw [hb]
          · exact hl₂ x hx
      | cons c l₁' =>
        simp only [List.cons_append] at hsplit
        have hb : b = c := (List.cons.injEq _ _ _ _ ▸ hsplit).1
        have hrest : rest = l₁' ++ (k, s) :: l₂ := (List.cons.injEq _ _ _ _ ▸ hsplit).2
        have hbs : b.2 < s := hb ▸ hl₁ c (List.mem_cons_self _ _)
        refine ⟨k, s, b :: p :: l₁', l₂, ?_, ?_, ?_, hl₂⟩
        · simpa [selectLoop, hgt] using hsel
        · simp [hrest]
        · intro x hx
          rcases List.mem_cons.mp hx with hx | hx
          · subst hx; exact hbs
          rcases List.mem_cons.mp hx with hx | hx
          · subst hx; exact lt_of_le_of_lt hle hbs
          · exact hl₁ x (List.mem_cons_of_mem _ hx)

/- ## Claim theorems: routing / scoring -/

/-- C3: for every message, registry of selection-word sets (with the
distinct graph names `Object.entries` yields) and per-graph history summary,
`scoreGraphsAndSelectOne`'s two-pass score map assigns each graph exactly the
spec's score: the sum over its selection words contained in the message of
the keyword points (word starts with `@`) or word points, plus thread count
times the per-thread points when the graph has history, plus the recency
points when `now` minus the history's `lastUpdatedAt` is under the recency
window — every point value and the window taken from the external
configuration. -/
theorem scoresOf_eq_spec (cfg : SelectGraphConfig) (now : Int) (message : String)
    (registry : SelectionRegistry) (hist : HistoryMap)
    (hnodup : (registry.map Prod.fst).Nodup) :
    scoresOf cfg now message registry hist
      = registry.map (fun p => (p.1, specScore cfg now message p.2 (List.lookup p.1 hist))) := by
  induction registry with
  | nil => rfl
  | cons q rest ih =>
    obtain ⟨k, ws⟩ := q
    simp only [List.map_cons, List.nodup_cons, List.mem_map] at hnodup
    obtain ⟨hk, hrest⟩ := hnodup
    have hkne : ∀ p ∈ rest, p.1 ≠ k := by
      intro p hp hcon
      exact hk ⟨p, hp, hcon⟩
    have hhead : addHistoryScore cfg now hist
        ((k, wordScore cfg message ws) :: rest.map (fun p => (p.1, wordScore cfg message p.2)))
        (k, ws)
        = (k, specScore cfg now message ws (List.lookup k hist)) ::
            rest.map (fun p => (p.1, wordScore cfg message p.2)) := by
      unfold addHistoryScore
      cases hql : List.lookup k hist with
      | none =>
        simp only [specScore, hql, wordScore_eq_sum]
        rw [add_zero, add_zero]
      | some gh =>
        dsimp only
        rw [setA_cons, if_pos rfl]
        congr 2
        simp only [specScore, wordScore_eq_sum]
        by_cases hrec : now - gh.lastUpdatedAt < cfg.fiveMinutes
        · rw [if_pos hrec, if_pos hrec, lookup_cons, if_pos rfl, Option.getD_some]
        · rw [if_neg hrec, if_neg hrec, add_zero, lookup_cons, if_pos rfl, Option.getD_some]
    calc scoresOf cfg now message ((k, ws) :: rest) hist
        = rest.foldl (addHistoryScore cfg now hist)
            ((k, specScore cfg now message ws (List.lookup k hist)) ::
              rest.map (fun p => (p.1, wordScore cfg message p.2))) := by
          simp only [scoresOf, List.map_cons, List.foldl_cons, hhead]
      _ = (k, specScore cfg now message ws (List.lookup k hist)) ::
            rest.foldl (addHistoryScore cfg now hist)
              (rest.map (fun p => (p.1, wordScore cfg message p.2))) :=
          foldl_addHistory_cons cfg now hist rest _ _ hkne
      _ = (k, specScore cfg now message ws (List.lookup k hist)) ::
            rest.map (fun p => (p.1, specScore cfg now message p.2 (List.lookup p.1 hist))) := by
          rw [← scoresOf, ih hrest]
      _ = _ := by simp

/-- C3 witness: the score map at a concrete registry and history. -/
theorem scoresOf_eq_spec_witness :
    ([("researchGraph", ["idea", "@research"]), ("monetizationGraph", ["market"])].map
        Prod.fst).Nodup ∧
    scoresOf ⟨300000, 1, 5, 1, 10⟩ 100 "an @research idea"
        [("researchGraph", ["idea", "@research"]), ("monetizationGraph", ["market"])]
        [("monetizationGraph", ⟨2, 50, "t1", "r1"⟩)]
      = [("researchGraph", ["idea", "@research"]), ("monetizationGraph", ["market"])].map
          (fun p => (p.1,
            specScore ⟨300000, 1, 5, 1, 10⟩ 100 "an @research idea" p.2
              (List.lookup p.1 [("monetizationGraph", ⟨2, 50, "t1", "r1"⟩)]))) :=
  ⟨by decide,
   scoresOf_eq_spec ⟨300000, 1, 5, 1, 10⟩ 100 "an @research idea"
     [("researchGraph", ["idea", "@research"]), ("monetizationGraph", ["market"])]
     [("monetizationGraph", ⟨2, 50, "t1", "r1"⟩)] (by decide)⟩

/-- C4: for every nonempty registry, `scoreGraphsAndSelectOne` returns a
graph whose score is strictly greater than every earlier graph's score and at
least every later graph's score in registry iteration order — i.e. the graph
with the strictly greatest score, and under ties (including the all-zero
case) the first such graph in iteration order. -/
theorem scoreGraphsAndSelectOne_spec (cfg : SelectGraphConfig) (now : Int) (message : String)
    (registry : SelectionRegistry) (hist : HistoryMap) (hne : registry ≠ []) :
    ∃ g s l₁ l₂,
      scoreGraphsAndSelectOne cfg now message registry hist = some g ∧
      scoresOf cfg now message registry hist = l₁ ++ (g, s) :: l₂ ∧
      (∀ p ∈ l₁, p.2 < s) ∧ (∀ p ∈ l₂, p.2 ≤ s) := by
  cases hs : scoresOf cfg now message registry hist with
  | nil => exact absurd hs (scoresOf_ne_nil cfg now message registry hist hne)
  | cons q t =>
    obtain ⟨k, s, l₁, l₂, hsel, hsplit, hl₁, hl₂⟩ := selectLoop_split t q
    refine ⟨k, s, l₁, l₂, ?_, hsplit, hl₁, hl₂⟩
    unfold scoreGraphsAndSelectOne
    rw [hs]
    show (selectLoop (some q) t).map Prod.fst = some k
    rw [hsel]
    rfl

/-- C4 witness: the characterization applied to a registry where two graphs
tie at score zero and a third scores higher. -/
theorem scoreGraphsAndSelectOne_spec_witness :
    ([("a", []), ("b", ["x"]), ("c", [])] : SelectionRegistry) ≠ [] ∧
    ∃ g s l₁ l₂,
      scoreGraphsAndSelectOne ⟨300000, 1, 5, 1, 10⟩ 0 "x" [("a", []), ("b", ["x"]), ("c", [])] []
        = some g ∧
      scoresOf ⟨300000, 1, 5, 1, 10⟩ 0 "x" [("a", []), ("b", ["x"]), ("c", [])] []
        = l₁ ++ (g, s) :: l₂ ∧
      (∀ p ∈ l₁, p.2 < s) ∧ (∀ p ∈ l₂, p.2 ≤ s) :=
  ⟨by decide,
   scoreGraphsAndSelectOne_spec ⟨300000, 1, 5, 1, 10⟩ 0 "x"
     [("a", []), ("b", ["x"]), ("c", [])] [] (by decide)⟩

/-- C5 counterexample: routing does depend on when the call happens.  With
the same message, registry and history, a call at `now = 0` (history still
inside the recency window) selects `monetizationGraph`, while a call at
`now = 1000000000` (window expired) selects `researchGraph`: the score drops
by the recency bonus and the word-matching graph wins the tie as first
iterated.  This refutes the claim that the result has no dependence on call
time. -/
theorem routing_call_time_counterexample :
    scoreGraphsAndSelectOne ⟨300000, 1, 5, 1, 10⟩ 0 "idea"
        [("researchGraph", ["idea"]), ("monetizationGraph", [])]
        [("monetizationGraph", ⟨1, 0, "t1", "r1"⟩)]
      = some "monetizationGraph" ∧
    scoreGraphsAndSelectOne ⟨300000, 1, 5, 1, 10⟩ 1000000000 "idea"
        [("researchGraph", ["idea"]), ("monetizationGraph", [])]
        [("monetizationGraph", ⟨1, 0, "t1", "r1"⟩)]
      = some "researchGraph" := by
  constructor <;> decide

/-- C5 amended: routing is a pure function of the message, the registry, the
history summary and the call time — there is no other hidden randomness; two
calls whose times classify every history entry's recency identically (in
particular, two calls at the same instant) return the same graph type. -/
theorem routing_deterministic (cfg : SelectGraphConfig) (message : String)
    (registry : SelectionRegistry) (hist : HistoryMap) (now₁ now₂ : Int)
    (h : ∀ k gh, (k, gh) ∈ hist →
      ((now₁ - gh.lastUpdatedAt < cfg.fiveMinutes) ↔
       (now₂ - gh.lastUpdatedAt < cfg.fiveMinutes))) :
    scoreGraphsAndSelectOne cfg now₁ message registry hist
      = scoreGraphsAndSelectOne cfg now₂ message registry hist := by
  have hstep : addHistoryScore cfg now₁ hist = addHistoryScore cfg now₂ hist := by
    funext scores p
    unfold addHistoryScore
    cases hql : List.lookup p.1 hist with
    | none => rfl
    | some gh =>
      have hiff := h p.1 gh (lookup_mem hql)
      by_cases hlt : now₁ - gh.lastUpdatedAt < cfg.fiveMinutes
      · simp only [if_pos hlt, if_pos (hiff.mp hlt)]
      · simp only [if_neg hlt, if_neg (fun hc => hlt (hiff.mpr hc))]
  unfold scoreGraphsAndSelectOne scoresOf
  rw [hstep]

/-- C5 amended witness: two calls at different instants that agree on
recency classification return the same graph. -/
theorem routing_deterministic_witness :
    scoreGraphsAndSelectOne ⟨300000, 1, 5, 1, 10⟩ 10 "idea"
        [("researchGraph", ["idea"])] [("researchGraph", ⟨1, 0, "t1", "r1"⟩)]
      = scoreGraphsAndSelectOne ⟨300000, 1, 5, 1, 10⟩ 20 "idea"
          [("researchGraph", ["idea"])] [("researchGraph", ⟨1, 0, "t1", "r1"⟩)] :=
  routing_deterministic ⟨300000, 1, 5, 1, 10⟩ "idea"
    [("researchGraph", ["idea"])] [("researchGraph", ⟨1, 0, "t1", "r1"⟩)] 10 20
    (by
      intro k gh hmem
      simp only [List.mem_singleton, Prod.mk.injEq] at hmem
      obtain ⟨rfl, rfl⟩ := hmem
      decide)

/- ## Registry lemmas and claim theorems C1, C2 -/

theorem addEdge_ok {b b' : Builder} {s e : String} (h : b.addEdge s e = .ok b') :
    (s = START ∨ b.nodes.contains s = true) ∧
    (e = ENDS ∨ b.nodes.contains e = true) ∧ b'.nodes = b.nodes := by
  unfold Builder.addEdge at h
  by_cases c1 : (s != START && !(b.nodes.contains s)) = true
  · rw [if_pos c1] at h
    exact absurd h (by simp)
  · rw [if_neg c1] at h
    by_cases c2 : (e != ENDS && !(b.nodes.contains e)) = true
    · rw [if_pos c2] at h
      exact absurd h (by simp)
    · rw [if_neg c2] at h
      cases h
      refine ⟨?_, ?_, rfl⟩
      · by_cases hs : s = START
        · exact Or.inl hs
        · right
          cases hcon : b.nodes.contains s
          · exact absurd (by simp [bne_iff_ne, hs]; simpa using hcon) c1
          · rfl
      · by_cases he : e = ENDS
        · exact Or.inl he
        · right
          cases hcon : b.nodes.contains e
          · exact absurd (by simp [bne_iff_ne, he]; simpa using hcon) c2
          · rfl

theorem edges_foldlM_valid (es : List (String × String)) :
    ∀ (b b' : Builder),
      es.foldlM (fun b p => b.addEdge (mapStartEndpoint p.1) (mapEndEndpoint p.2)) b = .ok b' →
      ∀ p ∈ es,
        (mapStartEndpoint p.1 = START ∨ b.nodes.contains (mapStartEndpoint p.1) = true) ∧
        (mapEndEndpoint p.2 = ENDS ∨ b.nodes.contains (mapEndEndpoint p.2) = true) := by
  induction es with
  | nil => intro b b' _ p hp; exact absurd hp (by simp)
  | cons q rest ih =>
    intro b b' h p hp
    rw [List.foldlM_cons] at h
    cases hq : b.addEdge (mapStartEndpoint q.1) (mapEndEndpoint q.2) with
    | error e => rw [hq] at h; exact Except.noConfusion h
    | ok b₁ =>
      rw [hq] at h
      obtain ⟨hs, he, hnodes⟩ := addEdge_ok hq
      rcases List.mem_cons.mp hp with hp | hp
      · subst hp; exact ⟨hs, he⟩
      · have := ih b₁ b' h p hp
        rw [hnodes] at this
        exact this

theorem nodes_foldlM_ok (reg : List String) (gname : String) (l : List String) :
    ∀ b : Builder, (∀ n ∈ l, reg.contains n = true) →
      l.foldlM
        (fun b nodeName =>
          if reg.contains nodeName then Except.ok (b.addNode nodeName)
          else Except.error (nodeNotRegisteredMsg nodeName gname)) b
        = .ok { b with nodes := b.nodes ++ l } := by
  induction l with
  | nil =>
    intro b _
    simp only [List.foldlM_nil, List.append_nil]
    rfl
  | cons n rest ih =>
    intro b hall
    rw [List.foldlM_cons, if_pos (hall n (List.mem_cons_self _ _))]
    show rest.foldlM _ (b.addNode n) = _
    rw [ih (b.addNode n) (fun m hm => hall m (List.mem_cons_of_mem _ hm))]
    simp [Builder.addNode]

theorem nodes_foldlM_ok_inv (reg : List String) (gname : String) (l : List String) :
    ∀ b b' : Builder,
      l.foldlM
        (fun b nodeName =>
          if reg.contains nodeName then Except.ok (b.addNode nodeName)
          else Except.error (nodeNotRegisteredMsg nodeName gname)) b
        = .ok b' →
      b'.nodes = b.nodes ++ l := by
  induction l with
  | nil =>
    intro b b' h
    cases h
    simp
  | cons n rest ih =>
    intro b b' h
    rw [List.foldlM_cons] at h
    by_cases hc : reg.contains n
    · rw [if_pos hc] at h
      have := ih (b.addNode n) b' h
      simp only [Builder.addNode] at this
      rw [this, List.append_assoc]
      rfl
    · rw [if_neg hc] at h
      exact Except.noConfusion h

theorem nodes_foldlM_error (reg : List String) (gname : String) (missing : String)
    (post : List String) (hmiss : reg.contains missing = false) (pre : List String) :
    ∀ b : Builder, (∀ n ∈ pre, reg.contains n = true) →
      (pre ++ missing :: post).foldlM
        (fun b nodeName =>
          if reg.contains nodeName then Except.ok (b.addNode nodeName)
          else Except.error (nodeNotRegisteredMsg nodeName gname)) b
        = .error (nodeNotRegisteredMsg missing gname) := by
  induction pre with
  | nil =>
    intro b _
    rw [List.nil_append, List.foldlM_cons, if_neg (by simpa using hmiss)]
    rfl
  | cons n rest ih =>
    intro b hall
    rw [List.cons_append, List.foldlM_cons, if_pos (hall n (List.mem_cons_self _ _))]
    exact ih (b.addNode n) (fun m hm => hall m (List.mem_cons_of_mem _ hm))

/-- C2: a graph spec naming a node with no registered node function fails
registration with the error naming the (first such) missing node, and for a
name never successfully registered `getDynamicGraph` yields the not-found
result; moreover a registration that succeeds can only have edges whose
endpoints are the `__start__`/`__end__` sentinels or members of the spec's
node set (edge-endpoint validation). -/
theorem registerGraphFromSpec_validation (st : BuilderState) (item : GraphJsonGraphSpec)
    (ann : String) (hann : item.annotationType = some ann)
    (hknown : annotationsMap.contains ann = true) :
    (∀ pre missing post, item.nodes = pre ++ missing :: post →
      (∀ n ∈ pre, st.nodeFuctionMap.contains n = true) →
      st.nodeFuctionMap.contains missing = false →
      registerGraphFromSpec st item = .error (nodeNotRegisteredMsg missing item.name)) ∧
    (List.lookup item.name st.dynamicGraphs = none →
      List.lookup item.name st.dynamicGraphBuilders = none →
      (getDynamicGraph st item.name).1 = none) ∧
    (∀ st', registerGraphFromSpec st item = .ok st' →
      ∀ p ∈ item.edges,
        (mapStartEndpoint p.1 = START ∨ item.nodes.contains (mapStartEndpoint p.1) = true) ∧
        (mapEndEndpoint p.2 = ENDS ∨ item.nodes.contains (mapEndEndpoint p.2) = true)) := by
  refine ⟨?_, ?_, ?_⟩
  · intro pre missing post hsplit hpre hmiss
    unfold registerGraphFromSpec
    rw [hann]
    dsimp only
    rw [if_neg (by simpa using hknown)]
    rw [hsplit, nodes_foldlM_error st.nodeFuctionMap item.name missing post hmiss pre _ hpre]
    rfl
  · intro h1 h2
    simp [getDynamicGraph, h1, h2]
  · intro st' hreg p hp
    unfold registerGraphFromSpec at hreg
    rw [hann] at hreg
    dsimp only at hreg
    rw [if_neg (by simpa using hknown)] at hreg
    cases hnodes : item.nodes.foldlM
        (fun (b : Builder) (nodeName : String) =>
          if st.nodeFuctionMap.contains nodeName then Except.ok (b.addNode nodeName)
          else Except.error (nodeNotRegisteredMsg nodeName item.name))
        ({ annotation := ann } : Builder) with
    | error e => rw [hnodes] at hreg; exact Except.noConfusion hreg
    | ok b₁ =>
      rw [hnodes] at hreg
      have hreg2 :
          (item.edges.foldlM
              (fun (b : Builder) (p : String × String) =>
                b.addEdge (mapStartEndpoint p.1) (mapEndEndpoint p.2)) b₁ >>=
            fun builder2 =>
              Except.ok { st with
                dynamicGraphBuilders := setA st.dynamicGraphBuilders item.name builder2,
                graphSelectionWords := setA st.graphSelectionWords item.name item.selectionWords })
            = Except.ok st' := hreg
      cases hedges : item.edges.foldlM
          (fun b p => b.addEdge (mapStartEndpoint p.1) (mapEndEndpoint p.2)) b₁ with
      | error e =>
        rw [hedges] at hreg2
        exact Except.noConfusion hreg2
      | ok b₂ =>
        have hb₁ : b₁.nodes = item.nodes := by
          have := nodes_foldlM_ok_inv st.nodeFuctionMap item.name item.nodes
            { annotation := ann } b₁ hnodes
          simpa using this
        have := edges_foldlM_valid item.edges b₁ b₂ hedges p hp
        rw [hb₁] at this
        exact this

/-- The registry state used to exercise registration: two node functions
registered, nothing compiled. -/
def c2State : BuilderState := { nodeFuctionMap := ["inputAnalysisNode"] }

/-- A spec naming a node (`ghostNode`) with no registered node function. -/
def c2Spec : GraphJsonGraphSpec :=
  { name := "badGraph", annotationType := some "DefaultGraphAnnotation",
    nodes := ["inputAnalysisNode", "ghostNode"] }

/-- C2 witness: registering `c2Spec` fails naming `ghostNode`, and the graph
name stays unknown to `getDynamicGraph`. -/
theorem registerGraphFromSpec_validation_witness :
    registerGraphFromSpec c2State c2Spec =
      .error (nodeNotRegisteredMsg "ghostNode" "badGraph") ∧
    (getDynamicGraph c2State "badGraph").1 = none :=
  ⟨(registerGraphFromSpec_validation c2State c2Spec "DefaultGraphAnnotation" rfl
      (by decide)).1 ["inputAnalysisNode"] "ghostNode" [] rfl (by decide) (by decide),
   (registerGraphFromSpec_validation c2State c2Spec "DefaultGraphAnnotation" rfl
      (by decide)).2.1 rfl rfl⟩

/-- Harness for the hot-swap scenario: apply a registration and keep the old
state when it reports an error (as the HTTP shell does by catching). -/
def regOrKeep (st : BuilderState) (item : GraphJsonGraphSpec) : BuilderState :=
  match registerGraphFromSpec st item with
  | .ok st' => st'
  | .error _ => st

/-- Initial registry for the C1 scenario: two node functions registered. -/
def c1Registry : BuilderState := { nodeFuctionMap := ["inputAnalysisNode", "synthesisNode"] }

/-- First registered spec for the graph name `dynGraph` (one node). -/
def c1SpecOld : GraphJsonGraphSpec :=
  { name := "dynGraph", annotationType := some "DefaultGraphAnnotation",
    nodes := ["inputAnalysisNode"] }

/-- Re-registered spec for the same name with a different shape (two nodes). -/
def c1SpecNew : GraphJsonGraphSpec :=
  { name := "dynGraph", annotationType := some "DefaultGraphAnnotation",
    nodes := ["inputAnalysisNode", "synthesisNode"] }

/-- The registry state after registering `c1SpecOld` and compiling it once
through `getDynamicGraph`. -/
def c1CachedState : BuilderState :=
  (getDynamicGraph (regOrKeep c1Registry c1SpecOld) "dynGraph").2

/-- The registry state after re-registering `c1SpecNew` over the cached
compiled graph. -/
def c1AfterReregister : BuilderState := regOrKeep c1CachedState c1SpecNew

/-- C1 counterexample: after re-registering `dynGraph` with a new spec, the
next `getDynamicGraph` still returns the OLD compiled shape (one node), even
though the stored builder now has the new shape (two nodes) — re-registration
does not invalidate the compiled-graph cache, so the retrieval does not
return the new spec's shape. -/
theorem register_no_invalidation_counterexample :
    (getDynamicGraph c1AfterReregister "dynGraph").1
        = some ⟨"DefaultGraphAnnotation", ["inputAnalysisNode"], []⟩ ∧
    List.lookup "dynGraph" c1AfterReregister.dynamicGraphBuilders
        = some ⟨"DefaultGraphAnnotation", ["inputAnalysisNode", "synthesisNode"], []⟩ ∧
    (getDynamicGraph c1AfterReregister "dynGraph").1
        ≠ some (Builder.compile
            ⟨"DefaultGraphAnnotation", ["inputAnalysisNode", "synthesisNode"], []⟩) :=
  ⟨by decide, by decide, by decide⟩

/-- C1 amended: a successful `registerGraphFromSpec` stores the new builder
and selection words but leaves the compiled-graph cache untouched; when a
compiled graph is already cached under the re-registered name,
`getDynamicGraph` keeps returning that old compiled graph (the new spec takes
effect only for names never yet compiled). -/
theorem registerGraphFromSpec_keeps_cache (st : BuilderState) (item : GraphJsonGraphSpec)
    (st' : BuilderState) (hreg : registerGraphFromSpec st item = .ok st') :
    st'.dynamicGraphs = st.dynamicGraphs ∧
    (∀ g, List.lookup item.name st.dynamicGraphs = some g →
      getDynamicGraph st' item.name = (some g, st')) := by
  have hgraphs : st'.dynamicGraphs = st.dynamicGraphs := by
    unfold registerGraphFromSpec at hreg
    cases hann : item.annotationType with
    | none =>
      rw [hann] at hreg
      dsimp only at hreg
      cases hreg
      rfl
    | some ann =>
      rw [hann] at hreg
      dsimp only at hreg
      by_cases hk : (!annotationsMap.contains ann) = true
      · rw [if_pos hk] at hreg
        cases hreg
        rfl
      · rw [if_neg hk] at hreg
        cases hnodes : item.nodes.foldlM
            (fun (b : Builder) (nodeName : String) =>
              if st.nodeFuctionMap.contains nodeName then Except.ok (b.addNode nodeName)
              else Except.error (nodeNotRegisteredMsg nodeName item.name))
            ({ annotation := ann } : Builder) with
        | error e => rw [hnodes] at hreg; exact Except.noConfusion hreg
        | ok b₁ =>
          rw [hnodes] at hreg
          have hreg2 :
              (item.edges.foldlM
                  (fun (b : Builder) (p : String × String) =>
                    b.addEdge (mapStartEndpoint p.1) (mapEndEndpoint p.2)) b₁ >>=
                fun builder2 =>
                  Except.ok { st with
                    dynamicGraphBuilders := setA st.dynamicGraphBuilders item.name builder2,
                    graphSelectionWords :=
                      setA st.graphSelectionWords item.name item.selectionWords })
                = Except.ok st' := hreg
          cases hedges : item.edges.foldlM
              (fun b p => b.addEdge (mapStartEndpoint p.1) (mapEndEndpoint p.2)) b₁ with
          | error e =>
            rw [hedges] at hreg2
            exact Except.noConfusion hreg2
          | ok b₂ =>
            rw [hedges] at hreg2
            have : Except.ok (ε := String)
                ({ st with
                  dynamicGraphBuilders := setA st.dynamicGraphBuilders item.name b₂,
                  graphSelectionWords :=
                    setA st.graphSelectionWords item.name item.selectionWords })
                = Except.ok st' := hreg2
            cases this
            rfl
  refine ⟨hgraphs, fun g hg => ?_⟩
  simp [getDynamicGraph, hgraphs, hg]

/-- C1 amended witness: re-registration over a cached compiled graph at the
concrete `dynGraph` scenario. -/
theorem registerGraphFromSpec_keeps_cache_witness :
    c1AfterReregister.dynamicGraphs = c1CachedState.dynamicGraphs ∧
    getDynamicGraph c1AfterReregister "dynGraph" =
      (some ⟨"DefaultGraphAnnotation", ["inputAnalysisNode"], []⟩, c1AfterReregister) :=
  ⟨(registerGraphFromSpec_keeps_cache c1CachedState c1SpecNew c1AfterReregister rfl).1,
   (registerGraphFromSpec_keeps_cache c1CachedState c1SpecNew c1AfterReregister
      rfl).2 ⟨"DefaultGraphAnnotation", ["inputAnalysisNode"], []⟩ (by decide)⟩

end Orchestrator
